import Mathlib

/-!
Verification of the conversation-state and run-orchestration engine of the
Avito AI assistant bot (files avito_ai_assistant_bot.py and
avito_ai_assistant_bot_admin.py), via a shallow embedding in Lean.

Python strings are modelled as lists of Unicode code points (List Char);
machine time is modelled in tenths of a second (so the 1.2 s polling sleep
is 12 and the 18 s deadline is 180); calls to the external OpenAI / storage
backend are modelled by explicit parameters carrying the backend outcome.
-/

namespace AvitoBot

/-! ## Conversation store: chat_id → thread_id (get_or_create_thread)

The sqlite table threads(chat_id PRIMARY KEY, thread_id) is modelled as an
association list; SELECT is a point lookup by key, INSERT appends a row.
The OpenAI threads.create call is modelled by an Option String argument:
some tid means the backend returned a fresh thread id, none means the call
raised (in which case the Python exception propagates before the INSERT,
leaving the table untouched). -/

def lookupThread (st : List (String × String)) (chat : String) : Option String :=
  (st.find? (fun p => p.1 = chat)).map (fun p => p.2)

/-- Model of get_or_create_thread (avito_ai_assistant_bot.py lines 146-161,
identical in avito_ai_assistant_bot_admin.py lines 104-117): point read by
chat_id, on hit return the stored thread id; on miss create a backend
thread, insert the binding and return the new id. The returned pair is
(result, table state after the call); result none models the propagated
backend exception. -/
def getOrCreateThread (st : List (String × String)) (chat : String)
    (backend : Option String) : Option String × List (String × String) :=
  match lookupThread st chat with
  | some tid => (some tid, st)
  | none =>
    match backend with
    | some tid => (some tid, st ++ [(chat, tid)])
    | none => (none, st)

/-! ## Run orchestrator: the polling loop of run_assistant_and_get_reply

The loop (avito_ai_assistant_bot.py lines 269-276)

  started = time.time()
  while True:
      run = retrieve(...)
      if run.status in ("completed", "failed", "cancelled", "expired"): break
      if time.time() - started > 18: break
      time.sleep(1.2)

is modelled with time in tenths of a second: status i is the run status the
i-th retrieve observes, t i is the wall clock at the i-th deadline check,
and started is the clock before the loop. The admin variant (lines 256-263)
is the same loop with deadline 15 s instead of 18 s. -/

inductive RunStatus where
  | queued
  | in_progress
  | completed
  | failed
  | cancelled
  | expired
deriving DecidableEq, Repr

/-- Test of the break condition on run.status: the four terminal values. -/
def isTerminal : RunStatus → Bool
  | .completed => true
  | .failed => true
  | .cancelled => true
  | .expired => true
  | _ => false

/-- Polling deadline of the main bot, 18 seconds, in tenths of a second. -/
def pollDeadline : Nat := 180

/-- Polling sleep, 1.2 seconds, in tenths of a second. -/
def pollInterval : Nat := 12

/-- One unrolling of the while-True loop starting at iteration i: break on a
terminal status, break when the elapsed time exceeds the deadline, otherwise
sleep and go to iteration i+1. fuel bounds the number of unrollings the
model is allowed; the theorems show that with the real clock any fuel of at
least 16 gives the same exit iteration, i.e. the unbounded loop exits. -/
def pollExit (status : Nat → RunStatus) (started : Nat) (t : Nat → Nat) :
    Nat → Nat → Nat
  | 0, i => i
  | fuel + 1, i =>
    if isTerminal (status i) = true then i
    else if started + pollDeadline < t i then i
    else pollExit status started t fuel (i + 1)

/-- Combined break condition of iteration i, as one Boolean. -/
def exitNow (status : Nat → RunStatus) (started : Nat) (t : Nat → Nat)
    (i : Nat) : Bool :=
  isTerminal (status i) || decide (started + pollDeadline < t i)

/-! ## Knowledge sync: upload_files and delete_file -/

/-- Entry of the "uploaded" list in the upload_files response. -/
structure UploadedEntry where
  id : String
  filename : String
deriving DecidableEq, Repr

/-- Model of the loop body of upload_files (avito_ai_assistant_bot.py lines
632-668): each file is read; empty content is skipped with continue (no
backend document created, no entry appended, no error); otherwise the
backend creates a document (id modelled by mkId applied to the filename)
and an entry is appended to the uploaded list. File contents are byte
lists. -/
def uploadFiles (mkId : String → String) :
    List (String × List Nat) → List UploadedEntry
  | [] => []
  | (name, content) :: rest =>
    if content = [] then uploadFiles mkId rest
    else ⟨mkId name, name⟩ :: uploadFiles mkId rest

/-- Outcome of one backend call. -/
inductive CallOutcome where
  | ok
  | err
deriving DecidableEq, Repr

/-- Backend file state: ids linked in the vector store, and ids stored in
the Files API. -/
structure FilesState where
  vsFiles : List String
  files : List String
deriving DecidableEq, Repr

/-- One backend call attempted by delete_file, in order. -/
inductive FileAction where
  | unlink (fid : String)
  | storageDelete (fid : String)
deriving DecidableEq, Repr

/-- Model of delete_file (avito_ai_assistant_bot.py lines 673-688): when a
vector store is configured, first try to unlink the index binding, with the
exception swallowed (except: pass); then unconditionally delete the stored
document via the Files API. A failing call leaves the corresponding state
component unchanged; a failing storage delete propagates to the outer
handler (result false = HTTP 500). Returns (success, state after the call,
calls attempted in order). -/
def deleteFile (hasVS : Bool) (unlinkRes deleteRes : CallOutcome)
    (st : FilesState) (fid : String) : Bool × FilesState × List FileAction :=
  let step1 : FilesState × List FileAction :=
    if hasVS then
      match unlinkRes with
      | .ok => ({ st with vsFiles := st.vsFiles.filter (fun x => x ≠ fid) },
                [.unlink fid])
      | .err => (st, [.unlink fid])
    else (st, [])
  match deleteRes with
  | .ok => (true,
      { step1.1 with files := step1.1.files.filter (fun x => x ≠ fid) },
      step1.2 ++ [.storageDelete fid])
  | .err => (false, step1.1, step1.2 ++ [.storageDelete fid])

/-! ## Reply extraction and post-processing

Model of avito_ai_assistant_bot.py lines 278-300.  Python strings are
List Char; str.strip() is modelled with Char.isWhitespace, Python \d with
Char.isDigit (decimal ASCII digits), and the str[:1000] slice with
List.take 1000. -/

/-- One element of an OpenAI thread message's content array: a text part
carrying part.text.value, or a non-text part (image etc.). -/
inductive ContentPart where
  | text (value : List Char)
  | other
deriving DecidableEq, Repr

/-- One message of messages.list(order="desc", limit=10): the author role
and the content parts in original order. The pipeline receives these
most-recent-first, at most ten of them, as the backend call returns them. -/
structure ThreadMessage where
  role : List Char
  content : List ContentPart
deriving DecidableEq, Repr

/-- The chunks list of the inner loop: the values of the text parts of one
message, in original order, non-text parts skipped. -/
def textChunks : List ContentPart → List (List Char)
  | [] => []
  | .text v :: rest => v :: textChunks rest
  | .other :: rest => textChunks rest

/-- Python str.strip(): drop whitespace from both ends. -/
def trimChars (l : List Char) : List Char :=
  ((l.dropWhile Char.isWhitespace).reverse.dropWhile Char.isWhitespace).reverse

/-- Model of the outer for-loop over msgs.data (lines 280-288): find the
first message whose role is assistant and whose chunks list is non-empty,
and return its chunks joined with a newline and stripped; an assistant
message with no text part does not break the loop. Returns the empty string
when no such message exists (reply stays ""). -/
def extractReply : List ThreadMessage → List Char
  | [] => []
  | m :: rest =>
    if m.role = "assistant".data then
      if textChunks m.content ≠ [] then
        trimChars (List.intercalate ['\n'] (textChunks m.content))
      else extractReply rest
    else extractReply rest

/-- The fixed fallback acknowledgment of line 291. -/
def fallbackChars : List Char :=
  "Спасибо! Сейчас уточню детали и вернусь с ответом.".data

/-- The closing bracket ending a citation marker. -/
def closeMatch : List Char → Option (List Char)
  | [] => none
  | e :: r4 => if e = '】' then some r4 else none

/-- After the digit run: a colon, then the non-empty body of non-closing
characters, then the closing bracket. -/
def colonMatch : List Char → Option (List Char)
  | [] => none
  | d :: r2 =>
    if d = ':' then
      if (r2.takeWhile (fun x => x ≠ '】')).isEmpty then none
      else closeMatch (r2.dropWhile (fun x => x ≠ '】'))
    else none

/-- The greedy match of the regex 【\d+:[^】]+】 at the head of the string:
an opening bracket, a non-empty digit run, a colon, a non-empty run of
non-closing-bracket characters, a closing bracket. Returns the rest of the
string after the match, or none when no match starts here. The regex is
deterministic: no backtracking can succeed where the greedy parse fails. -/
def matchCitation : List Char → Option (List Char)
  | [] => none
  | c :: rest =>
    if c = '【' then
      if (rest.takeWhile Char.isDigit).isEmpty then none
      else colonMatch (rest.dropWhile Char.isDigit)
    else none

/-- Model of re.sub(r"【\d+:[^】]+】", "", reply): scan left to right, delete
each (leftmost, greedy, non-overlapping) match, copy every other character.
fuel bounds the recursion; fuel = length of the string always suffices
because a match consumes at least one character. -/
def stripCitationsFuel : Nat → List Char → List Char
  | 0, _ => []
  | _ + 1, [] => []
  | fuel + 1, c :: rest =>
    match matchCitation (c :: rest) with
    | some r => stripCitationsFuel fuel r
    | none => c :: stripCitationsFuel fuel rest

/-- The citation-marker substitution on a whole string. -/
def stripCitations (s : List Char) : List Char :=
  stripCitationsFuel s.length s

/-- Does any position of the string start a citation-marker match? True
exactly when the string contains a substring matching the pattern. -/
def containsCitation : List Char → Bool
  | [] => false
  | c :: rest => (matchCitation (c :: rest)).isSome || containsCitation rest

/-- Every occurrence of the opening bracket in the string starts a complete
citation-marker match (no stray or nested opening brackets). -/
def allMarkersWellFormed : List Char → Bool
  | [] => true
  | c :: rest =>
    ((c != '【') || (matchCitation (c :: rest)).isSome) &&
      allMarkersWellFormed rest

/-- Model of lines 278-300 after the polling loop: extract the reply from
the listed messages, substitute the fallback when it is empty, strip
citation markers and strip surrounding whitespace, prepend the configured
reply prefix when one is set, and truncate to 1000 characters. -/
def processReply (msgs : List ThreadMessage) (pref : List Char) : List Char :=
  let reply0 := extractReply msgs
  let reply1 := if reply0 = [] then fallbackChars else reply0
  let reply2 := trimChars (stripCitations reply1)
  let reply3 := if pref ≠ [] then pref ++ reply2 else reply2
  reply3.take 1000

/-- Model of run_assistant_and_get_reply after the message is appended and
the run is started: drive the polling loop to its exit iteration, then —
whatever the final run status is, terminal or not — list the thread
messages and build the reply. Returns the last observed run status together
with the reply text; there is no error path for a deadline expiry. -/
def runAndGetReply (status : Nat → RunStatus) (started : Nat) (t : Nat → Nat)
    (msgs : List ThreadMessage) (pref : List Char) :
    RunStatus × List Char :=
  (status (pollExit status started t 16 0), processReply msgs pref)

/-- Modelled from the spec (section 4.4), for comparison with extractReply:
scan the most-recent-first messages for the first message authored by the
assistant role and return the concatenation of that message's text
segments in original order, trimmed of surrounding whitespace. -/
def specExtractReply (msgs : List ThreadMessage) : List Char :=
  match msgs.find? (fun m => m.role = "assistant".data) with
  | some m => trimChars (List.intercalate ['\n'] (textChunks m.content))
  | none => []

/-- The amended extraction contract: the first assistant-authored message
that has at least one text segment is selected. -/
def specExtractAmended (msgs : List ThreadMessage) : List Char :=
  match msgs.find?
      (fun m => decide (m.role = "assistant".data) &&
        !(textChunks m.content).isEmpty) with
  | some m => trimChars (List.intercalate ['\n'] (textChunks m.content))
  | none => []

end AvitoBot

namespace AvitoBot

/-! ## Theorems for the conversation store claims -/

theorem lookupThread_append_self (st : List (String × String)) (chat tid : String)
    (h : lookupThread st chat = none) :
    lookupThread (st ++ [(chat, tid)]) chat = some tid := by
  unfold lookupThread at *
  rw [List.find?_append]
  cases hf : st.find? (fun p => p.1 = chat) with
  | none => simp [List.find?]
  | some p => rw [hf] at h; simp at h

/-- C1: for a chat id with no binding, the first call to getOrCreateThread
creates exactly one binding — the table becomes the old table plus the single
row (chat, tid) for the one thread the backend created — and every later
call with the same chat id returns the same thread id with the table
unchanged, whatever the backend would answer (in particular none: no second
backend thread is needed or created). -/
theorem getOrCreateThread_first_then_idempotent
    (st : List (String × String)) (chat tid : String)
    (h : lookupThread st chat = none) :
    getOrCreateThread st chat (some tid) = (some tid, st ++ [(chat, tid)]) ∧
    ∀ backend : Option String,
      getOrCreateThread (st ++ [(chat, tid)]) chat backend
        = (some tid, st ++ [(chat, tid)]) := by
  constructor
  · unfold getOrCreateThread
    rw [h]
  · intro backend
    unfold getOrCreateThread
    rw [lookupThread_append_self st chat tid h]

/-- Witness for C1 at a concrete input: the empty table and chat id c1. -/
theorem getOrCreateThread_first_then_idempotent_witness :
    lookupThread [] "c1" = none ∧
    (getOrCreateThread [] "c1" (some "th_1") = (some "th_1", [("c1", "th_1")]) ∧
     ∀ backend : Option String,
       getOrCreateThread [("c1", "th_1")] "c1" backend
         = (some "th_1", [("c1", "th_1")])) := by
  refine ⟨rfl, ?_⟩
  have h := getOrCreateThread_first_then_idempotent [] "c1" "th_1" rfl
  simpa using h

/-- C8: when the backend thread-creation call fails for an unbound chat id,
getOrCreateThread reports the failure (result none, the propagated
exception) and the stored table is exactly what it was before the call. -/
theorem getOrCreateThread_backend_failure
    (st : List (String × String)) (chat : String)
    (h : lookupThread st chat = none) :
    getOrCreateThread st chat none = (none, st) := by
  unfold getOrCreateThread
  rw [h]

/-- Witness for C8 at a concrete input: the empty table and chat id c1. -/
theorem getOrCreateThread_backend_failure_witness :
    lookupThread [] "c1" = none ∧
    getOrCreateThread ([] : List (String × String)) "c1" none = (none, []) :=
  ⟨rfl, getOrCreateThread_backend_failure [] "c1" rfl⟩

/-! ## Theorems for the run-orchestrator claims -/

theorem pollExit_unfold (status : Nat → RunStatus) (started : Nat)
    (t : Nat → Nat) (fuel i : Nat) :
    pollExit status started t (fuel + 1) i
      = if exitNow status started t i = true then i
        else pollExit status started t fuel (i + 1) := by
  by_cases h1 : isTerminal (status i) = true
  · simp [pollExit, exitNow, h1]
  · by_cases h2 : started + pollDeadline < t i
    · simp [pollExit, exitNow, h1, h2]
    · simp [pollExit, exitNow, h1, h2]

theorem pollExit_eq_find (status : Nat → RunStatus) (started : Nat)
    (t : Nat → Nat) (hex : ∃ k, exitNow status started t k = true) :
    ∀ fuel i, i ≤ Nat.find hex → Nat.find hex ≤ i + fuel →
      pollExit status started t fuel i = Nat.find hex := by
  intro fuel
  induction fuel with
  | zero =>
    intro i h1 h2
    have : i = Nat.find hex := Nat.le_antisymm h1 (by simpa using h2)
    simpa [pollExit] using this
  | succ fuel ih =>
    intro i h1 h2
    rw [pollExit_unfold]
    by_cases hi : exitNow status started t i = true
    · have hle : Nat.find hex ≤ i := Nat.find_min' hex hi
      rw [if_pos hi]
      exact Nat.le_antisymm h1 hle
    · have hne : i ≠ Nat.find hex := by
        intro he
        exact hi (he ▸ Nat.find_spec hex)
      have h1' : i + 1 ≤ Nat.find hex := Nat.lt_of_le_of_ne h1 hne
      simp [hi, ih (i + 1) h1' (by omega)]

/-- C2: with the loop clock advancing by exactly one polling interval per
iteration, the polling loop exits: the exit iteration j reached with fuel 16
satisfies the break condition (terminal status or elapsed time beyond the
deadline), no earlier iteration satisfies it (the loop stops as soon as the
condition holds and not before), the clock at exit is within the deadline
plus one polling interval of the start, and every fuel bound of at least 16
yields the same exit iteration — the unbounded while-True loop never blocks
indefinitely. -/
theorem pollExit_terminates (status : Nat → RunStatus) (started : Nat)
    (t : Nat → Nat) (ht : ∀ i, t i = started + pollInterval * i) :
    (isTerminal (status (pollExit status started t 16 0)) = true ∨
      started + pollDeadline < t (pollExit status started t 16 0)) ∧
    (∀ k < pollExit status started t 16 0,
      isTerminal (status k) = false ∧ t k ≤ started + pollDeadline) ∧
    t (pollExit status started t 16 0) ≤ started + pollDeadline + pollInterval ∧
    (∀ fuel, 16 ≤ fuel →
      pollExit status started t fuel 0 = pollExit status started t 16 0) := by
  have hex : ∃ k, exitNow status started t k = true := by
    refine ⟨16, ?_⟩
    unfold exitNow
    rw [ht 16]
    simp [pollDeadline, pollInterval]
  have hfind16 : Nat.find hex ≤ 16 := by
    apply Nat.find_min' hex
    unfold exitNow
    rw [ht 16]
    simp [pollDeadline, pollInterval]
  have hmain : pollExit status started t 16 0 = Nat.find hex :=
    pollExit_eq_find status started t hex 16 0 (Nat.zero_le _) (by omega)
  refine ⟨?_, ?_, ?_, ?_⟩
  · rw [hmain]
    have := Nat.find_spec hex
    unfold exitNow at this
    rcases Bool.or_eq_true_iff.mp this with h | h
    · exact Or.inl h
    · exact Or.inr (of_decide_eq_true h)
  · intro k hk
    rw [hmain] at hk
    have := Nat.find_min hex hk
    unfold exitNow at this
    constructor
    · cases h : isTerminal (status k)
      · rfl
      · exact absurd (by simp [h]) this
    · by_contra h
      push_neg at h
      exact this (by simp [h])
  · rw [hmain, ht]
    have : pollInterval * Nat.find hex ≤ pollInterval * 16 :=
      Nat.mul_le_mul_left _ hfind16
    simp [pollDeadline, pollInterval] at this ⊢
    omega
  · intro fuel hf
    rw [hmain]
    exact pollExit_eq_find status started t hex fuel 0 (Nat.zero_le _) (by omega)

/-- Witness for C2 at a concrete input: a run that is forever in_progress
under the ideal clock, observed with fuel 16 and fuel 20. -/
theorem pollExit_terminates_witness :
    (∀ i, (fun k => 12 * k) i = 0 + pollInterval * i) ∧
    pollExit (fun _ => RunStatus.in_progress) 0 (fun k => 12 * k) 20 0
      = pollExit (fun _ => RunStatus.in_progress) 0 (fun k => 12 * k) 16 0 := by
  have ht : ∀ i, (fun k => 12 * k) i = 0 + pollInterval * i := by
    intro i
    simp [pollInterval]
  exact ⟨ht,
    (pollExit_terminates (fun _ => RunStatus.in_progress) 0
      (fun k => 12 * k) ht).2.2.2 20 (by omega)⟩

/-! ## Theorems for the knowledge-sync claims -/

/-- C9: delete_file with a configured vector store attempts the index unlink
first and then the storage delete, in that order, even when the unlink call
errors; and once the storage deletion succeeds the document id is absent
from the stored files that subsequent listings enumerate, whatever the
unlink outcome was. -/
theorem deleteFile_unlink_first_storage_anyway
    (unlinkRes : CallOutcome) (st : FilesState) (fid : String) :
    (deleteFile true unlinkRes .ok st fid).1 = true ∧
    (deleteFile true unlinkRes .ok st fid).2.2
      = [FileAction.unlink fid, FileAction.storageDelete fid] ∧
    fid ∉ (deleteFile true unlinkRes .ok st fid).2.1.files := by
  cases unlinkRes <;>
    simp [deleteFile, List.mem_filter]

/-! ## Lemmas about the citation-marker substitution -/

theorem closeMatch_suffix {l r : List Char} (h : closeMatch l = some r) :
    r <:+ l ∧ r.length < l.length := by
  match l with
  | [] => simp [closeMatch] at h
  | e :: r4 =>
    simp only [closeMatch] at h
    by_cases he : e = '】'
    · rw [if_pos he] at h
      cases h
      exact ⟨List.suffix_cons e r, by simp⟩
    · simp [he] at h

theorem colonMatch_suffix {l r : List Char} (h : colonMatch l = some r) :
    r <:+ l ∧ r.length < l.length := by
  match l with
  | [] => simp [colonMatch] at h
  | d :: r2 =>
    simp only [colonMatch] at h
    by_cases hd : d = ':'
    · rw [if_pos hd] at h
      by_cases hb : (r2.takeWhile (fun x => x ≠ '】')).isEmpty
      · rw [if_pos hb] at h
        exact Option.noConfusion h
      · rw [if_neg hb] at h
        have h1 := closeMatch_suffix h
        have h2 : r2.dropWhile (fun x => x ≠ '】') <:+ r2 :=
          List.dropWhile_suffix _
        refine ⟨(h1.1.trans h2).trans (List.suffix_cons d r2), ?_⟩
        have h3 := h1.2
        have h4 := h2.length_le
        simp only [List.length_cons]
        omega
    · simp [hd] at h

theorem matchCitation_suffix_length {s r : List Char}
    (h : matchCitation s = some r) : r <:+ s ∧ r.length < s.length := by
  match s with
  | [] => simp [matchCitation] at h
  | c :: rest =>
    simp only [matchCitation] at h
    by_cases hc : c = '【'
    · rw [if_pos hc] at h
      by_cases hds : (rest.takeWhile Char.isDigit).isEmpty
      · simp [hds] at h
      · rw [if_neg hds] at h
        have h1 := colonMatch_suffix h
        have h2 : rest.dropWhile Char.isDigit <:+ rest :=
          List.dropWhile_suffix _
        refine ⟨(h1.1.trans h2).trans (List.suffix_cons c rest), ?_⟩
        have h3 := h1.2
        have h4 := h2.length_le
        simp only [List.length_cons]
        omega
    · simp [hc] at h

theorem matchCitation_suffix {s r : List Char}
    (h : matchCitation s = some r) : r <:+ s :=
  (matchCitation_suffix_length h).1

theorem matchCitation_length {s r : List Char}
    (h : matchCitation s = some r) : r.length < s.length :=
  (matchCitation_suffix_length h).2


theorem matchCitation_none_of_head_ne {c : Char} {rest : List Char}
    (hc : c ≠ '【') : matchCitation (c :: rest) = none := by
  simp only [matchCitation]
  rw [if_neg hc]

theorem allMarkersWellFormed_cons {c : Char} {rest : List Char}
    (h : allMarkersWellFormed (c :: rest) = true) :
    ((c != '【') || (matchCitation (c :: rest)).isSome) = true ∧
      allMarkersWellFormed rest = true := by
  unfold allMarkersWellFormed at h
  exact Bool.and_eq_true_iff.mp h

theorem allMarkersWellFormed_suffix {l₁ l₂ : List Char}
    (hsf : l₁ <:+ l₂) (h : allMarkersWellFormed l₂ = true) :
    allMarkersWellFormed l₁ = true := by
  induction l₂ generalizing l₁ with
  | nil =>
    rw [List.suffix_nil.mp hsf]
    rfl
  | cons c rest ih =>
    rcases List.suffix_cons_iff.mp hsf with h1 | h1
    · rw [h1]; exact h
    · exact ih h1 (allMarkersWellFormed_cons h).2

theorem strip_no_bracket :
    ∀ fuel s, s.length ≤ fuel → allMarkersWellFormed s = true →
      '【' ∉ stripCitationsFuel fuel s := by
  intro fuel
  induction fuel with
  | zero =>
    intro s _ _
    simp [stripCitationsFuel]
  | succ fuel ih =>
    intro s hlen hwf
    match s with
    | [] => simp [stripCitationsFuel]
    | c :: rest =>
      unfold stripCitationsFuel
      cases hm : matchCitation (c :: rest) with
      | some r =>
        have hr : r.length ≤ fuel := by
          have := matchCitation_length hm
          simp only [List.length_cons] at this hlen
          omega
        exact ih r hr
          (allMarkersWellFormed_suffix (matchCitation_suffix hm) hwf)
      | none =>
        have hcnot : c ≠ '【' := by
          intro he
          have h1 := (allMarkersWellFormed_cons hwf).1
          rw [hm] at h1
          simp [he] at h1
        intro hmem
        rcases List.mem_cons.mp hmem with h | h
        · exact hcnot h.symm
        · exact ih rest (by simp at hlen; omega)
            (allMarkersWellFormed_cons hwf).2 h

theorem containsCitation_eq_false_of_no_bracket :
    ∀ l : List Char, '【' ∉ l → containsCitation l = false := by
  intro l
  induction l with
  | nil => intro _; rfl
  | cons c rest ih =>
    intro h
    have hc : c ≠ '【' := fun he => h (he ▸ List.mem_cons_self c rest)
    unfold containsCitation
    rw [matchCitation_none_of_head_ne hc]
    simp [ih (fun hm => h (List.mem_cons_of_mem c hm))]

theorem trimChars_subset (l : List Char) : trimChars l ⊆ l := by
  unfold trimChars
  intro x hx
  rw [List.mem_reverse] at hx
  have h1 := (List.dropWhile_suffix Char.isWhitespace).subset hx
  rw [List.mem_reverse] at h1
  exact (List.dropWhile_suffix Char.isWhitespace).subset h1

/-! ## Theorems for the reply-extraction claims -/

/-- C5: for every listed thread state and every configured reply prefix,
the processed reply — citation markers stripped, then the prefix prepended,
then the cut to 1000 characters, in that order as processReply performs
them — has length at most 1000 characters. -/
theorem processReply_length_le (msgs : List ThreadMessage)
    (pref : List Char) : (processReply msgs pref).length ≤ 1000 := by
  unfold processReply
  simp [List.length_take]

/-- C4 counterexample: a thread whose only assistant message is exactly one
citation marker defeats the fallback — the extracted text is non-empty, so
the fallback is not substituted, and the citation strip then empties the
reply: with no reply prefix configured the final reply is the empty
string. -/
theorem processReply_empty_marker_only :
    processReply [⟨"assistant".data, [.text "【1:x】".data]⟩] [] = [] := by
  decide

/-- C4 amended: the final reply is non-empty whenever no assistant text was
extracted (the fixed fallback acknowledgment is substituted), or the
extracted text survives citation-stripping and trimming, or a reply prefix
is configured; only a non-empty extracted text consisting solely of
citation markers and whitespace, with no prefix set, produces an empty
reply. -/
theorem processReply_ne_nil (msgs : List ThreadMessage) (pref : List Char)
    (h : extractReply msgs = [] ∨
      trimChars (stripCitations (extractReply msgs)) ≠ [] ∨ pref ≠ []) :
    processReply msgs pref ≠ [] := by
  unfold processReply
  intro hempty
  rw [List.take_eq_nil_iff] at hempty
  rcases hempty with h1000 | hnil
  · exact absurd h1000 (by norm_num)
  · by_cases he : extractReply msgs = []
    · rw [if_pos he] at hnil
      have hfb : trimChars (stripCitations fallbackChars) ≠ [] := by decide
      by_cases hp : pref ≠ []
      · rw [if_pos hp] at hnil
        rcases List.append_eq_nil.mp hnil with ⟨hl, _⟩
        exact hp hl
      · rw [if_neg hp] at hnil
        exact hfb hnil
    · rw [if_neg he] at hnil
      rcases h with h | h | h
      · exact he h
      · by_cases hp : pref ≠ []
        · rw [if_pos hp] at hnil
          exact h (List.append_eq_nil.mp hnil).2
        · rw [if_neg hp] at hnil
          exact h hnil
      · rw [if_pos h] at hnil
        exact h (List.append_eq_nil.mp hnil).1

/-- Witness for C4 amended: an empty message list selects the fallback and
the reply is non-empty. -/
theorem processReply_ne_nil_witness :
    extractReply [] = [] ∧ processReply [] [] ≠ [] :=
  ⟨rfl, processReply_ne_nil [] [] (Or.inl rfl)⟩

/-- C6 counterexample: the single regex substitution pass does not re-scan
its own output, so the nested-marker text 【1【2:x】:y】 leaves the fresh
marker 【1:y】 in the final reply — a substring matching the citation
pattern survives. -/
theorem processReply_nested_marker_survives :
    containsCitation
      (processReply [⟨"assistant".data, [.text "【1【2:x】:y】".data]⟩] [])
      = true := by
  decide

/-- C6 amended: whenever every opening bracket of the text selected for
post-processing starts a complete citation marker (no nested or stray
opening brackets — true of every marker the backend emits) and the
configured prefix contains no opening bracket, the final reply contains no
substring matching the citation pattern: all markers are removed. -/
theorem processReply_no_citation_of_wellformed (msgs : List ThreadMessage)
    (pref : List Char)
    (h1 : allMarkersWellFormed
      (if extractReply msgs = [] then fallbackChars else extractReply msgs)
        = true)
    (h2 : '【' ∉ pref) :
    containsCitation (processReply msgs pref) = false := by
  unfold processReply
  apply containsCitation_eq_false_of_no_bracket
  intro hmem
  have hmem2 := List.take_subset 1000 _ hmem
  have hnostrip : '【' ∉ stripCitations
      (if extractReply msgs = [] then fallbackChars else extractReply msgs) :=
    strip_no_bracket _ _ le_rfl h1
  have htrim : '【' ∉ trimChars (stripCitations
      (if extractReply msgs = [] then fallbackChars else extractReply msgs)) :=
    fun hx => hnostrip (trimChars_subset _ hx)
  by_cases hp : pref ≠ []
  · rw [if_pos hp] at hmem2
    rcases List.mem_append.mp hmem2 with hx | hx
    · exact h2 hx
    · exact htrim hx
  · rw [if_neg hp] at hmem2
    exact htrim hmem2

/-- Witness for C6 amended: a realistic assistant text with one well-formed
marker and the configured "[Авито] " prefix yields a marker-free reply. -/
theorem processReply_no_citation_of_wellformed_witness :
    allMarkersWellFormed
      (if extractReply [⟨"assistant".data, [.text "цена 100【3:файл.txt】".data]⟩] = []
       then fallbackChars
       else extractReply [⟨"assistant".data, [.text "цена 100【3:файл.txt】".data]⟩])
      = true ∧
    '【' ∉ "[Авито] ".data ∧
    containsCitation
      (processReply [⟨"assistant".data, [.text "цена 100【3:файл.txt】".data]⟩]
        "[Авито] ".data) = false :=
  ⟨by decide, by decide,
    processReply_no_citation_of_wellformed _ _ (by decide) (by decide)⟩

/-- C7 counterexample: when the newest assistant message carries only
non-text content, the code skips it and answers from an older assistant
message, while the claimed contract selects the first assistant-authored
message and would extract nothing from it. -/
theorem extractReply_ne_specExtract :
    extractReply
        [⟨"assistant".data, [.other]⟩, ⟨"assistant".data, [.text "hello".data]⟩]
      ≠ specExtractReply
        [⟨"assistant".data, [.other]⟩, ⟨"assistant".data, [.text "hello".data]⟩] := by
  decide

/-- C7 amended: the extraction scans the bounded most-recent-first message
list for the first message that is assistant-authored and has at least one
text segment, and returns that message's text segments joined in original
order (non-text segments ignored) and trimmed of surrounding whitespace;
the empty string results when no such message exists. -/
theorem extractReply_eq_specAmended (msgs : List ThreadMessage) :
    extractReply msgs = specExtractAmended msgs := by
  induction msgs with
  | nil => rfl
  | cons m rest ih =>
    by_cases hr : m.role = "assistant".data
    · by_cases hc : textChunks m.content = []
      · have hp : (decide (m.role = "assistant".data) &&
            !(textChunks m.content).isEmpty) = false := by
          simp [hc]
        unfold extractReply specExtractAmended
        simp only [List.find?_cons, hp, if_pos hr, hc]
        simp only [specExtractAmended] at ih
        simpa using ih
      · have hp : (decide (m.role = "assistant".data) &&
            !(textChunks m.content).isEmpty) = true := by
          simp [hr, hc, List.isEmpty_iff]
        unfold extractReply specExtractAmended
        simp only [List.find?_cons, hp, if_pos hr, if_pos hc]
    · have hp : (decide (m.role = "assistant".data) &&
          !(textChunks m.content).isEmpty) = false := by
        simp [hr]
      unfold extractReply specExtractAmended
      simp only [List.find?_cons, hp, if_neg hr]
      simp only [specExtractAmended] at ih
      exact ih

/-- C3: when no polled status is ever terminal, the orchestrator still
returns normally at the deadline — the pair of the last observed
(non-terminal) run status and the reply built by extraction over the listed
thread state — rather than signalling any error: the deadline expiry is a
soft timeout and the caller proceeds to reply extraction. -/
theorem runAndGetReply_soft_timeout (status : Nat → RunStatus)
    (started : Nat) (t : Nat → Nat) (msgs : List ThreadMessage)
    (pref : List Char)
    (ht : ∀ i, t i = started + pollInterval * i)
    (hnt : ∀ i, isTerminal (status i) = false) :
    runAndGetReply status started t msgs pref
        = (status 16, processReply msgs pref) ∧
      isTerminal (runAndGetReply status started t msgs pref).1 = false := by
  have hex : ∃ k, exitNow status started t k = true := by
    refine ⟨16, ?_⟩
    unfold exitNow
    rw [ht 16, hnt 16]
    simp [pollDeadline, pollInterval]
  have h16 : Nat.find hex = 16 := by
    rw [Nat.find_eq_iff]
    refine ⟨?_, ?_⟩
    · unfold exitNow
      rw [ht 16, hnt 16]
      simp [pollDeadline, pollInterval]
    · intro n hn
      unfold exitNow
      rw [ht n, hnt n]
      simp only [Bool.false_or, decide_eq_true_eq, not_lt, pollDeadline,
        pollInterval]
      omega
  have hpoll : pollExit status started t 16 0 = 16 := by
    rw [pollExit_eq_find status started t hex 16 0 (by omega) (by omega), h16]
  constructor
  · unfold runAndGetReply
    rw [hpoll]
  · unfold runAndGetReply
    rw [hpoll]
    exact hnt 16

/-- Witness for C3: a run that stays in_progress forever under the ideal
clock, with an empty thread listing. -/
theorem runAndGetReply_soft_timeout_witness :
    runAndGetReply (fun _ => RunStatus.in_progress) 0 (fun k => 12 * k) [] []
        = (RunStatus.in_progress, processReply [] []) ∧
      isTerminal (runAndGetReply (fun _ => RunStatus.in_progress) 0
        (fun k => 12 * k) [] []).1 = false :=
  runAndGetReply_soft_timeout (fun _ => RunStatus.in_progress) 0
    (fun k => 12 * k) [] [] (by intro i; simp [pollInterval])
    (by intro i; rfl)

/-- C10: upload_files creates a backend document and an uploaded-list entry
for exactly the provided files whose content is non-empty, in order; a file
with empty (zero-byte) content contributes nothing — no document, no entry,
no error — and the call still succeeds. -/
theorem uploadFiles_skips_empty (mkId : String → String)
    (fs : List (String × List Nat)) :
    uploadFiles mkId fs
      = (fs.filter (fun p => !(p.2.isEmpty))).map
          (fun p => ⟨mkId p.1, p.1⟩) := by
  induction fs with
  | nil => rfl
  | cons f rest ih =>
    obtain ⟨name, content⟩ := f
    by_cases h : content = []
    · simp [uploadFiles, h, ih]
    · simp [uploadFiles, h, ih, List.isEmpty_iff]

end AvitoBot
